import Mathlib

/-!
Verification development for the K-MAD central-layer claim-arbiter pipeline
(`src/utils/central_layer_claim_arbiter.py`).

The Python module is embedded shallowly:
* `ClaimType`, `Claim` and the governance config become Lean structures;
  the opaque claim payload (`value : Any`) is a type parameter `V`.
* `confidence : float` is modelled as a rational number `ℚ`; every claim
  settled here depends only on order comparisons of small decimal scores,
  which coincide for rationals and IEEE doubles at the inputs used.
* Python dicts keyed by strings become insertion-ordered association lists
  (`List (String × _)`); Python `None` becomes `Option.none`.
* Fallible code (attribute access on `None`) returns `Except String _`.
* `CentralController.process` is embedded as `process_trace`, which returns
  the result envelope together with instrumentation counters (how many times
  the auto-replacement producer, the validators and the execution phase ran),
  so that temporal claims about the pipeline become statements about counters.
-/

/-- The closed `ClaimType` enum of the scheduler (source lines 27-58). -/
inductive ClaimType where
  | TASK_INSTANCE
  | TARGET_SLOT_ID
  | PLACEMENT_PROPOSAL
  | CAPACITY_CHECK_RESULT
  | REMAINING_CAPACITY
  | CAN_FIT
  | CONSISTENCY_CHECK_RESULT
  | VALIDATION_ERRORS
  | ALTERNATIVE_SLOTS
  | REPLACEMENT_PROPOSAL
  | TEMPLATE_OPERATION
  | SLOT_OPERATION
  | COMPLETION_STATUS
deriving DecidableEq, Repr

/-- The `.value` string of each enum member (source lines 34-58). -/
def ClaimType.val : ClaimType → String
  | .TASK_INSTANCE => "task_instance"
  | .TARGET_SLOT_ID => "target_slot_id"
  | .PLACEMENT_PROPOSAL => "placement_proposal"
  | .CAPACITY_CHECK_RESULT => "capacity_check_result"
  | .REMAINING_CAPACITY => "remaining_capacity"
  | .CAN_FIT => "can_fit"
  | .CONSISTENCY_CHECK_RESULT => "consistency_check_result"
  | .VALIDATION_ERRORS => "validation_errors"
  | .ALTERNATIVE_SLOTS => "alternative_slots"
  | .REPLACEMENT_PROPOSAL => "replacement_proposal"
  | .TEMPLATE_OPERATION => "template_operation"
  | .SLOT_OPERATION => "slot_operation"
  | .COMPLETION_STATUS => "completion_status"

/-- A claim (source lines 61-74).  The payload type `V` stands for the Python
`Any` payload; the two evidence keys read by `_calculate_score` are modelled as
booleans (`evidence.get` truthiness). -/
structure Claim (V : Type) where
  claim_type : ClaimType
  handler_name : String
  value : V
  confidence : ℚ := 1
  ev_domain_dictionary_match : Bool := false
  ev_rule_match : Bool := false
deriving Repr

/-- The governance config: the `capabilities` table mapping a handler name to
its `can_claim` list of claim-type value strings (read at source lines
530-533). -/
structure GovConfig where
  capabilities : List (String × List String)
deriving Repr

/-- First-match association-list lookup, the model of Python dict lookup
(dict keys are unique, so first match is the match). -/
def lookupStr {β : Type} : List (String × β) → String → Option β
  | [], _ => none
  | (k, v) :: rest, key => if k = key then some v else lookupStr rest key

namespace ClaimArbiter

variable {V : Type}

/-- `ClaimArbiter._calculate_score` (source lines 491-518):
`confidence * 50`, plus 30 for a domain-dictionary match, plus 20 for a
rule match. -/
def calculate_score (c : Claim V) : ℚ :=
  c.confidence * 50
    + (if c.ev_domain_dictionary_match then 30 else 0)
    + (if c.ev_rule_match then 20 else 0)

/-- `ClaimArbiter._validate_capability` (source lines 520-541): true iff the
value string of the claim type is in the `can_claim` list of the handler (missing
handler or missing `can_claim` defaults to the empty list). -/
def validate_capability (config : GovConfig) (c : Claim V) : Bool :=
  let allowed := (lookupStr config.capabilities c.handler_name).getD []
  decide (c.claim_type.val ∈ allowed)

/-- `ClaimArbiter._claim_type_to_field_name` (source lines 543-568). -/
def claim_type_to_field_name : ClaimType → String
  | .TASK_INSTANCE => "task_instance"
  | .TARGET_SLOT_ID => "target_slot_id"
  | .PLACEMENT_PROPOSAL => "placement_proposal"
  | .CAPACITY_CHECK_RESULT => "capacity_check_result"
  | .REMAINING_CAPACITY => "remaining_capacity"
  | .CAN_FIT => "can_fit"
  | .CONSISTENCY_CHECK_RESULT => "consistency_check_result"
  | .VALIDATION_ERRORS => "validation_errors"
  | .ALTERNATIVE_SLOTS => "alternative_slots"
  | .REPLACEMENT_PROPOSAL => "replacement_proposal"
  | .TEMPLATE_OPERATION => "template_operation"
  | .SLOT_OPERATION => "slot_operation"
  | .COMPLETION_STATUS => "completion_status"

/-- Python `max(list, key=f)` on a nonempty list `a :: l`: fold left, keeping
the current best unless the key of a later element is strictly greater.  Ties keep
the earlier element. -/
def pyMax (f : Claim V → ℚ) (a : Claim V) (l : List (Claim V)) : Claim V :=
  l.foldl (fun best c => if f best < f c then c else best) a

/-- Key insertion for the insertion-ordered dict of groups built at source
lines 462-466: a new key is appended at the end, an existing key is kept in
place. -/
def insertKey (ks : List ClaimType) (t : ClaimType) : List ClaimType :=
  if t ∈ ks then ks else ks ++ [t]

/-- The group keys of `grouped_claims`, in first-occurrence order (the
iteration order of the Python dict built at source lines 462-466). -/
def groupKeys (claims : List (Claim V)) : List ClaimType :=
  claims.foldl (fun ks c => insertKey ks c.claim_type) []

/-- The group stored under key `t`: all claims of that type, in list order. -/
def groupOf (claims : List (Claim V)) (t : ClaimType) : List (Claim V) :=
  claims.filter (fun c => decide (c.claim_type = t))

/-- The `validated_claims` list computed at source lines 469-474.  NOTE:
the source computes this list but never reads it again — selection below
runs over `grouped_claims`, which was built from ALL claims. -/
def validated_claims (config : GovConfig) (claims : List (Claim V)) :
    List (Claim V) :=
  claims.filter (validate_capability config)

/-- The body of the Step-3 loop of `arbitrate` (source lines 478-487) for
one group key: an empty group contributes nothing (`continue`), otherwise
the group contributes the field entry of its best-scoring claim, selected by
Python `max`. -/
def groupEntry (claims : List (Claim V)) (t : ClaimType) :
    List (String × V) :=
  match groupOf claims t with
  | [] => []
  | c :: rest =>
      [(claim_type_to_field_name t, (pyMax calculate_score c rest).value)]

/-- `ClaimArbiter.arbitrate` (source lines 443-489): group all claims by
type (Step 1), compute `validated_claims` (Step 2 — dead code, see
`validated_claims`), then for each group key in insertion order append that
group entry (`groupEntry` — the best-scoring claim of the group) to the
field mapping (Step 3).  The result models the `final_fields` dict in its
insertion order. -/
def arbitrate (config : GovConfig) (claims : List (Claim V)) :
    List (String × V) :=
  let _ := validated_claims config claims
  (groupKeys claims).foldl (fun fields t => fields ++ groupEntry claims t) []

end ClaimArbiter

/-- A validation outcome, the dict returned by the `validate` method of a validator.  Per the
validator contract it carries a `passed` boolean (the diagnostics fields are
never read by the controller and are omitted). -/
structure Outcome where
  passed : Bool
deriving DecidableEq, Repr

/-- The command dict.  The controller itself only reads `command.get("action")`;
the rest of the dict is only ever passed through to producer and validator
functions, which are abstract here, so `action` suffices. -/
structure Command where
  action : String
deriving DecidableEq, Repr

namespace CentralController

variable {V : Type}

/-- The dict `_invoke_validators` returns (source lines 284-295): both keys
are always present; `none` models Python `None` (the initial value, kept when
no validator of that name is registered). -/
structure VResults (V : Type) where
  capacity : Option Outcome
  consistency : Option Outcome
deriving Repr

/-- The `validate(claims, data)` method of a validator. -/
def ValidatorFn (V : Type) : Type := List (Claim V) → Command → Outcome

/-- The `process(data)` method of a proposer handler. -/
def HandlerFn (V : Type) : Type := Command → List (Claim V)

/-- The `process(command, validation_results)` method of the auto-replacement
handler (two-argument form, source line 329). -/
def ReplacementFn (V : Type) : Type := Command → VResults V → List (Claim V)

/-- The controller state after registration: the governance config, the
proposer registry, the validator registry, and — split out from the handler
registry because its `process` has a different arity — the entry registered
under the name `AutoReplacementProposer`, if any. -/
structure Controller (V : Type) where
  config : GovConfig
  handlers : List (String × HandlerFn V)
  autoReplacement : Option (ReplacementFn V)
  validators : List (String × ValidatorFn V)

/-- `CentralController._detect_triggers` (source lines 216-233): static
lookup table from action to handler names; unknown actions give `[]`. -/
def detect_triggers (action : String) : List String :=
  if action = "place" then ["TaskPlacementProposer"]
  else if action = "create_template" then ["TaskTemplateManager"]
  else if action = "create_slot" then ["TimeSlotManager"]
  else if action = "complete" then ["TaskCompletionHandler"]
  else if action = "list" then ["DisplayHandler"]
  else []

/-- `CentralController._check_capability` (source lines 258-271): the source
always returns `True` (the capability check is a TODO there). -/
def check_capability : Bool := true

/-- `CentralController._invoke_handlers` (source lines 235-256): invoke each
triggered, registered handler in table order and concatenate the claims;
unregistered names are skipped with a warning. -/
def invoke_handlers (handlers : List (String × HandlerFn V))
    (names : List String) (cmd : Command) : List (Claim V) :=
  names.foldl
    (fun claims n =>
      match lookupStr handlers n with
      | some h => if check_capability then claims ++ h cmd else claims
      | none => claims)
    []

/-- `CentralController._invoke_validators` (source lines 273-295): start from
`{"capacity": None, "consistency": None}` and overwrite the slot of each
registered validator named `CapacityValidator` or `ConsistencyValidator`;
validators registered under any other name are ignored by the loop. -/
def invoke_validators (validators : List (String × ValidatorFn V))
    (claims : List (Claim V)) (cmd : Command) : VResults V :=
  validators.foldl
    (fun r nv =>
      if nv.1 = "CapacityValidator" then
        { r with capacity := some (nv.2 claims cmd) }
      else if nv.1 = "ConsistencyValidator" then
        { r with consistency := some (nv.2 claims cmd) }
      else r)
    ⟨none, none⟩

/-- The trace of `validate` calls made by the loop of `_invoke_validators`:
one `(name, claims)` entry per call, in loop order.  Instrumentation of the
same loop as `invoke_validators`. -/
def validator_calls (validators : List (String × ValidatorFn V))
    (claims : List (Claim V)) : List (String × List (Claim V)) :=
  validators.foldl
    (fun acc nv =>
      if nv.1 = "CapacityValidator" then acc ++ [(nv.1, claims)]
      else if nv.1 = "ConsistencyValidator" then acc ++ [(nv.1, claims)]
      else acc)
    []

/-- The evaluation dict built by `_evaluate_validations`. -/
structure Evaluation where
  capacity_ok : Bool
  consistency_ok : Bool
  all_ok : Bool
deriving DecidableEq, Repr

/-- Python `x.get("passed", True)` where `x` is
`validation_results.get(key, {})`: when the slot holds `None` (no validator
of that kind registered), attribute access `.get` on `None` raises
`AttributeError`. -/
def getPassed : Option Outcome → Except String Bool
  | none => .error "AttributeError: NoneType has no attribute get"
  | some o => .ok o.passed

/-- `CentralController._evaluate_validations` (source lines 297-314).
Evaluates the capacity slot first, then the consistency slot, as the source
does; a `None` slot raises. -/
def evaluate_validations (vr : VResults V) : Except String Evaluation := do
  let c ← getPassed vr.capacity
  let k ← getPassed vr.consistency
  return ⟨c, k, c && k⟩

/-- `CentralController._invoke_auto_replacement` (source lines 316-330):
call the registered auto-replacement handler, or return `[]` when none is
registered. -/
def invoke_auto_replacement (auto : Option (ReplacementFn V))
    (cmd : Command) (vr : VResults V) : List (Claim V) :=
  match auto with
  | some h => h cmd vr
  | none => []

/-- The approval dict of `_final_approval`: approved with the claim list, or
rejected with reason `"検証失敗"` (validation failed, carrying the evaluation
as details) or `"職務分掌違反"` (capability violation, carrying the violation
list). -/
inductive Approval (V : Type) where
  | ok (approved_claims : List (Claim V))
  | validation_failed (details : Evaluation)
  | capability_violation (violations : List String)

/-- The `reason` string of a rejection dict (source lines 345 and 355). -/
def Approval.reasonStr : Approval V → String
  | .ok _ => ""
  | .validation_failed _ => "検証失敗"
  | .capability_violation _ => "職務分掌違反"

/-- Whether the approval dict has `approved = True`. -/
def Approval.isOk : Approval V → Bool
  | .ok _ => true
  | _ => false

/-- `CentralController._check_capability_violations` (source lines 365-378):
the source body is a TODO and always returns the empty list. -/
def check_capability_violations (_claims : List (Claim V)) : List String :=
  []

/-- `CentralController._final_approval` (source lines 332-363): reject when
`all_ok` is false; otherwise reject when `_check_capability_violations`
returns a nonempty list; otherwise approve all claims. -/
def final_approval (claims : List (Claim V)) (ev : Evaluation) : Approval V :=
  if ev.all_ok = false then .validation_failed ev
  else
    match check_capability_violations claims with
    | [] => .ok claims
    | v :: vs => .capability_violation (v :: vs)

/-- The execution-result dict of `_execute`. -/
structure ExecResult where
  executed : Bool
  claims_processed : ℕ
deriving DecidableEq, Repr

/-- `CentralController._execute` (source lines 380-401): a pure function that
returns `{"executed": True, "claims_processed": len(claims)}` — the actual
data write is a TODO in the source. -/
def execute (claims : List (Claim V)) (_cmd : Command) : ExecResult :=
  ⟨true, claims.length⟩

/-- A value stored in a result envelope: a boolean, a string, or the nested
execution-result dict. -/
inductive EnvVal where
  | b (x : Bool)
  | s (x : String)
  | exec (x : ExecResult)
deriving DecidableEq, Repr

/-- A result envelope: the string-keyed dict returned by
`CentralController.process`, in insertion order. -/
def Envelope : Type := List (String × EnvVal)

instance : DecidableEq Envelope := by
  unfold Envelope
  infer_instance

/-- Whether an envelope dict has an entry under key `k`. -/
def envHasKey (env : Envelope) (k : String) : Bool :=
  env.any (fun p => p.1 = k)

/-- `CentralController._format_result` (source lines 403-417): the success
envelope `{"success": True, "result": ..., "message": "処理が完了しました"}`. -/
def format_result (er : ExecResult) : Envelope :=
  [("success", .b true), ("result", .exec er),
   ("message", .s "処理が完了しました")]

/-- The rejection envelope built inline in `process` (source lines 202-207):
`{"success": False, "error": approval["reason"], "phase": "approval"}`. -/
def rejection_envelope (reason : String) : Envelope :=
  [("success", .b false), ("error", .s reason), ("phase", .s "approval")]

/-- The instrumented record of one `process` run: the returned envelope (or
the uncaught Python exception as `.error`), the first-round validation
results and evaluation, and counters — how many times the auto-replacement
producer `process` method ran, how many times `_invoke_validators` ran, how many
times `_execute` ran — plus the approval dict when phase 7 was reached. -/
structure Trace (V : Type) where
  envelope : Except String Envelope
  first_vr : VResults V
  first_eval : Except String Evaluation
  auto_calls : ℕ
  validation_rounds : ℕ
  execute_calls : ℕ
  approval : Option (Approval V)

/-- Phases 7-9 of `process` (source lines 198-214), shared by every path
that reaches final approval: reject with the inline rejection envelope, or
execute and format the success envelope. -/
def finish_run (claims : List (Claim V)) (cmd : Command) (ev : Evaluation)
    (vr1 : VResults V) (ev1 : Evaluation) (auto : ℕ) (rounds : ℕ) :
    Trace V :=
  match final_approval claims ev with
  | .ok ac =>
      { envelope := .ok (format_result (execute ac cmd)),
        first_vr := vr1, first_eval := .ok ev1,
        auto_calls := auto, validation_rounds := rounds,
        execute_calls := 1, approval := some (.ok ac) }
  | a =>
      { envelope := .ok (rejection_envelope a.reasonStr),
        first_vr := vr1, first_eval := .ok ev1,
        auto_calls := auto, validation_rounds := rounds,
        execute_calls := 0, approval := some a }

/-- The claim set collected by phases 2-3 of `process` (the local variable
`all_claims` at source line 177): handler invocation over the triggered
names. -/
def round1_claims (ctrl : Controller V) (cmd : Command) : List (Claim V) :=
  invoke_handlers ctrl.handlers (detect_triggers cmd.action) cmd

/-- The first-round validation results (the local variable
`validation_results` at source line 181). -/
def round1_vr (ctrl : Controller V) (cmd : Command) : VResults V :=
  invoke_validators ctrl.validators (round1_claims ctrl cmd) cmd

/-- The second-round validation results after the replacement claims `rc`
were appended (source line 195). -/
def round2_vr (ctrl : Controller V) (cmd : Command) (rc : List (Claim V)) :
    VResults V :=
  invoke_validators ctrl.validators (round1_claims ctrl cmd ++ rc) cmd

/-- `CentralController.process` (source lines 146-214), instrumented.
Phase 2: trigger detection; phase 3: handler invocation; phase 4: validator
invocation; phase 5: evaluation (which raises `AttributeError` when a slot is
`None`); phase 6: when `capacity_ok` is false, invoke the auto-replacement
handler once and, iff it returned a nonempty list, append its claims and
re-run phases 4-5 once; phases 7-9: `finish_run`. -/
def process_trace (ctrl : Controller V) (cmd : Command) : Trace V :=
  match evaluate_validations (round1_vr ctrl cmd) with
  | .error e =>
      { envelope := .error e, first_vr := round1_vr ctrl cmd,
        first_eval := .error e, auto_calls := 0, validation_rounds := 1,
        execute_calls := 0, approval := none }
  | .ok ev1 =>
      if ev1.capacity_ok then
        finish_run (round1_claims ctrl cmd) cmd ev1 (round1_vr ctrl cmd)
          ev1 0 1
      else
        match ctrl.autoReplacement with
        | none =>
            finish_run (round1_claims ctrl cmd) cmd ev1 (round1_vr ctrl cmd)
              ev1 0 1
        | some h =>
            match h cmd (round1_vr ctrl cmd) with
            | [] =>
                finish_run (round1_claims ctrl cmd) cmd ev1
                  (round1_vr ctrl cmd) ev1 1 1
            | rc0 :: rcs =>
                match evaluate_validations (round2_vr ctrl cmd (rc0 :: rcs))
                with
                | .error e =>
                    { envelope := .error e, first_vr := round1_vr ctrl cmd,
                      first_eval := .ok ev1, auto_calls := 1,
                      validation_rounds := 2, execute_calls := 0,
                      approval := none }
                | .ok ev2 =>
                    finish_run (round1_claims ctrl cmd ++ rc0 :: rcs) cmd
                      ev2 (round1_vr ctrl cmd) ev1 1 2

/-- The return value of `CentralController.process`: the envelope of the
instrumented run. -/
def process (ctrl : Controller V) (cmd : Command) : Except String Envelope :=
  (process_trace ctrl cmd).envelope

end CentralController

open ClaimArbiter CentralController

/-! Concrete instances used in counterexamples and witnesses. -/

/-- A claim asserted by a handler (`"Rogue"`) that has no entry in the
governance config, hence an empty `can_claim` set: unauthorized. -/
def rogueClaim : Claim ℕ :=
  { claim_type := .TARGET_SLOT_ID, handler_name := "Rogue", value := 42 }

/-- A governance config with an empty capabilities table. -/
def emptyConfig : GovConfig := ⟨[]⟩

/-- Producer A of the worked example in the spec: confidence 0.9, rule match. -/
def claimA : Claim ℕ :=
  { claim_type := .TARGET_SLOT_ID, handler_name := "A", value := 1,
    confidence := 9/10, ev_rule_match := true }

/-- Producer B of the worked example in the spec: confidence 0.5,
domain-dictionary match. -/
def claimB : Claim ℕ :=
  { claim_type := .TARGET_SLOT_ID, handler_name := "B", value := 2,
    confidence := 1/2, ev_domain_dictionary_match := true }

/-- A claim from producer B whose score ties claimA exactly (confidence
0.9, rule match, score 65). -/
def claimTie : Claim ℕ :=
  { claim_type := .TARGET_SLOT_ID, handler_name := "B", value := 2,
    confidence := 9/10, ev_rule_match := true }

/-- A config authorizing both example producers for `target_slot_id`. -/
def configAB : GovConfig :=
  ⟨[("A", ["target_slot_id"]), ("B", ["target_slot_id"])]⟩

/-- A validator whose outcome always passes. -/
def vPass : ValidatorFn ℕ := fun _ _ => ⟨true⟩

/-- A validator whose outcome always fails. -/
def vFail : ValidatorFn ℕ := fun _ _ => ⟨false⟩

/-- A validator registered under a name the dispatch loop does not know. -/
def otherValidator : ValidatorFn ℕ := fun _ _ => ⟨true⟩

/-- The auto-replacement handler used in the retry run: always proposes one
claim. -/
def replacementStub : ReplacementFn ℕ := fun _ _ => [rogueClaim]

/-- The `place` command. -/
def cmdPlace : Command := ⟨"place"⟩

/-- A controller with no registered validators at all. -/
def ctrlNoValidators : Controller ℕ :=
  { config := emptyConfig, handlers := [], autoReplacement := none,
    validators := [] }

/-- A controller whose consistency validator fails: its runs are rejected at
final approval. -/
def ctrlReject : Controller ℕ :=
  { config := emptyConfig, handlers := [], autoReplacement := none,
    validators := [("CapacityValidator", vPass),
                   ("ConsistencyValidator", vFail)] }

/-- A controller whose validators both pass: its runs are approved and
executed. -/
def ctrlOk : Controller ℕ :=
  { config := emptyConfig, handlers := [], autoReplacement := none,
    validators := [("CapacityValidator", vPass),
                   ("ConsistencyValidator", vPass)] }

/-- A controller whose capacity validator always fails and which has an
auto-replacement handler registered: its runs retry exactly once and still
fail. -/
def ctrlRetry : Controller ℕ :=
  { config := emptyConfig, handlers := [],
    autoReplacement := some replacementStub,
    validators := [("CapacityValidator", vFail),
                   ("ConsistencyValidator", vPass)] }

/-- The success envelope of a run of `ctrlOk` on `cmdPlace` (no claims, so
zero claims processed). -/
def okEnvelope : Envelope :=
  [("success", .b true), ("result", .exec ⟨true, 0⟩),
   ("message", .s "処理が完了しました")]

/-- A claim of a different type (`TASK_INSTANCE`, score 50), making the
tie-break witness run on a multi-type claim list. -/
def wTask : Claim ℕ :=
  { claim_type := .TASK_INSTANCE, handler_name := "A", value := 7 }

/-- The first-inserted `TARGET_SLOT_ID` claim of the tie-break witness:
score 25, strictly below the tied maximum. -/
def wLow : Claim ℕ :=
  { claim_type := .TARGET_SLOT_ID, handler_name := "A", value := 3,
    confidence := 1/2 }

/-- The earlier of the two claims tied for the highest score 65. -/
def wTie1 : Claim ℕ :=
  { claim_type := .TARGET_SLOT_ID, handler_name := "A", value := 1,
    confidence := 9/10, ev_rule_match := true }

/-- The later of the two claims tied for the highest score 65. -/
def wTie2 : Claim ℕ :=
  { claim_type := .TARGET_SLOT_ID, handler_name := "B", value := 2,
    confidence := 9/10, ev_rule_match := true }

/-- The claim list of the tie-break witness: two types, and within the
`TARGET_SLOT_ID` group a low scorer followed by two claims tied at 65. -/
def wClaims : List (Claim ℕ) := [wTask, wLow, wTie1, wTie2]

/-- A config authorizing the producers of the tie-break witness. -/
def configW : GovConfig :=
  ⟨[("A", ["target_slot_id", "task_instance"]), ("B", ["target_slot_id"])]⟩

/-! Helper lemmas about Python `max` (first maximal element wins) and about
the `finish_run` tail of the pipeline. -/

/-- The winner of Python `max` is a member of the list. -/
theorem pyMax_mem {V : Type} (f : Claim V → ℚ) (a : Claim V)
    (l : List (Claim V)) : pyMax f a l ∈ a :: l := by
  induction l generalizing a with
  | nil => simp [pyMax]
  | cons b rest ih =>
      unfold pyMax at *
      simp only [List.foldl_cons]
      rcases List.mem_cons.mp (ih (if f a < f b then b else a)) with h | h
      · by_cases hab : f a < f b
        · rw [if_pos hab] at h ⊢
          simp [h]
        · rw [if_neg hab] at h ⊢
          simp [h]
      · simp [List.mem_cons.mpr (Or.inr (List.mem_cons.mpr (Or.inr h)))]

/-- The winner of Python `max` has a maximal key. -/
theorem pyMax_le {V : Type} (f : Claim V → ℚ) (a : Claim V)
    (l : List (Claim V)) : ∀ b ∈ a :: l, f b ≤ f (pyMax f a l) := by
  induction l generalizing a with
  | nil => simp [pyMax]
  | cons c rest ih =>
      intro b hb
      unfold pyMax at *
      simp only [List.foldl_cons]
      have step_ge_a : f a ≤ f (if f a < f c then c else a) := by
        by_cases h : f a < f c
        · rw [if_pos h]; exact le_of_lt h
        · rw [if_neg h]
      have step_ge_c : f c ≤ f (if f a < f c then c else a) := by
        by_cases h : f a < f c
        · rw [if_pos h]
        · rw [if_neg h]; exact le_of_not_lt h
      have hrec := ih (if f a < f c then c else a)
      have hstep : f (if f a < f c then c else a)
          ≤ f (List.foldl (fun best c => if f best < f c then c else best)
                (if f a < f c then c else a) rest) :=
        hrec _ (List.mem_cons_self _ _)
      rcases List.mem_cons.mp hb with rfl | hb2
      · exact le_trans step_ge_a hstep
      · rcases List.mem_cons.mp hb2 with rfl | hb3
        · exact le_trans step_ge_c hstep
        · exact hrec b (List.mem_cons.mpr (Or.inr hb3))

/-- When the head already ties or beats every later element, Python `max`
returns the head: ties are resolved to the earliest-inserted element. -/
theorem pyMax_head {V : Type} (f : Claim V → ℚ) (a : Claim V)
    (l : List (Claim V)) (h : ∀ b ∈ l, f b ≤ f a) : pyMax f a l = a := by
  induction l with
  | nil => rfl
  | cons b rest ih =>
      unfold pyMax at *
      simp only [List.foldl_cons]
      rw [if_neg (not_lt.mpr (h b (List.mem_cons_self _ _)))]
      exact ih (fun c hc => h c (List.mem_cons.mpr (Or.inr hc)))

/-- Python `max` selects the FIRST element attaining the maximal key: the
list splits as `pre ++ winner :: post` where every element of `pre` scores
strictly below the winner and the winner is maximal over the whole list.
In particular, when several elements tie for the highest key, the winner is
the earliest-inserted of them (none of them can be in `pre`). -/
theorem pyMax_first_argmax {V : Type} (f : Claim V → ℚ) :
    ∀ (l : List (Claim V)) (a : Claim V),
      ∃ pre post,
        a :: l = pre ++ pyMax f a l :: post
          ∧ (∀ b ∈ pre, f b < f (pyMax f a l))
          ∧ (∀ b ∈ a :: l, f b ≤ f (pyMax f a l)) := by
  intro l
  induction l with
  | nil =>
      intro a
      refine ⟨[], [], rfl, ?_, ?_⟩
      · intro b hb
        simp at hb
      · intro b hb
        rcases List.mem_cons.mp hb with rfl | hb2
        · exact le_refl _
        · simp at hb2
  | cons b rest ih =>
      intro a
      have hstep : pyMax f a (b :: rest)
          = pyMax f (if f a < f b then b else a) rest := by
        unfold pyMax
        simp only [List.foldl_cons]
      by_cases hab : f a < f b
      · rw [if_pos hab] at hstep
        obtain ⟨pre, post, hsplit, hpre, hmax⟩ := ih b
        refine ⟨a :: pre, post, ?_, ?_, ?_⟩
        · rw [hstep, List.cons_append, ← hsplit]
        · intro x hx
          rw [hstep]
          rcases List.mem_cons.mp hx with rfl | hx2
          · exact lt_of_lt_of_le hab (hmax b (List.mem_cons_self _ _))
          · exact hpre x hx2
        · intro x hx
          rw [hstep]
          rcases List.mem_cons.mp hx with rfl | hx2
          · exact le_of_lt
              (lt_of_lt_of_le hab (hmax b (List.mem_cons_self _ _)))
          · exact hmax x hx2
      · rw [if_neg hab] at hstep
        push_neg at hab
        obtain ⟨pre, post, hsplit, hpre, hmax⟩ := ih a
        rcases pre with _ | ⟨p0, ps⟩
        · simp only [List.nil_append] at hsplit
          injection hsplit with h1 h2
          refine ⟨[], b :: rest, ?_, ?_, ?_⟩
          · rw [hstep, ← h1]
            rfl
          · intro x hx
            simp at hx
          · intro x hx
            rw [hstep, ← h1]
            rcases List.mem_cons.mp hx with rfl | hx2
            · exact le_refl _
            · rcases List.mem_cons.mp hx2 with rfl | hx3
              · exact hab
              · have hr := hmax x (List.mem_cons.mpr (Or.inr hx3))
                rw [← h1] at hr
                exact hr
        · rw [List.cons_append] at hsplit
          injection hsplit with h1 h2
          refine ⟨a :: b :: ps, post, ?_, ?_, ?_⟩
          · rw [hstep]
            simp only [List.cons_append]
            rw [← h2]
          · intro x hx
            rw [hstep]
            have hp0 : f p0 < f (pyMax f a rest) :=
              hpre p0 (List.mem_cons_self _ _)
            rw [← h1] at hp0
            rcases List.mem_cons.mp hx with rfl | hx2
            · exact hp0
            · rcases List.mem_cons.mp hx2 with rfl | hx3
              · exact lt_of_le_of_lt hab hp0
              · exact hpre x (List.mem_cons.mpr (Or.inr hx3))
          · intro x hx
            rw [hstep]
            rcases List.mem_cons.mp hx with rfl | hx2
            · exact hmax x (List.mem_cons_self _ _)
            · rcases List.mem_cons.mp hx2 with rfl | hx3
              · exact le_trans hab (hmax a (List.mem_cons_self _ _))
              · exact hmax x (List.mem_cons.mpr (Or.inr hx3))

/-- The type-to-field-name table is injective: distinct claim types map to
distinct output fields. -/
theorem claim_type_to_field_name_inj :
    ∀ t1 t2 : ClaimType,
      claim_type_to_field_name t1 = claim_type_to_field_name t2 →
      t1 = t2 := by
  intro t1 t2
  cases t1 <;> cases t2 <;> decide

/-- A key is a member of the list it was just inserted into. -/
theorem insertKey_mem_self (ks : List ClaimType) (t : ClaimType) :
    t ∈ insertKey ks t := by
  unfold insertKey
  by_cases h : t ∈ ks
  · rw [if_pos h]
    exact h
  · rw [if_neg h]
    exact List.mem_append_right _ (List.mem_singleton.mpr rfl)

/-- Inserting a key preserves existing members. -/
theorem insertKey_mem_mono (ks : List ClaimType) (u t : ClaimType)
    (h : t ∈ ks) : t ∈ insertKey ks u := by
  unfold insertKey
  by_cases hu : u ∈ ks
  · rw [if_pos hu]
    exact h
  · rw [if_neg hu]
    exact List.mem_append_left _ h

/-- Folding `insertKey` over a claim list preserves existing keys. -/
theorem foldl_insertKey_mem {V : Type} (l : List (Claim V)) :
    ∀ (ks : List ClaimType) (t : ClaimType), t ∈ ks →
      t ∈ l.foldl (fun ks c => insertKey ks c.claim_type) ks := by
  induction l with
  | nil =>
      intro ks t h
      exact h
  | cons c rest ih =>
      intro ks t h
      simp only [List.foldl_cons]
      exact ih _ t (insertKey_mem_mono ks c.claim_type t h)

/-- The type of every claim in the list is among the group keys. -/
theorem mem_groupKeys_of_mem {V : Type} (claims : List (Claim V))
    (c : Claim V) (hc : c ∈ claims) : c.claim_type ∈ groupKeys claims := by
  unfold groupKeys
  suffices h : ∀ (l : List (Claim V)) (ks : List ClaimType), c ∈ l →
      c.claim_type ∈ l.foldl (fun ks x => insertKey ks x.claim_type) ks from
    h claims [] hc
  intro l
  induction l with
  | nil =>
      intro ks h
      simp at h
  | cons d rest ih =>
      intro ks h
      simp only [List.foldl_cons]
      rcases List.mem_cons.mp h with rfl | h2
      · exact foldl_insertKey_mem rest _ _ (insertKey_mem_self ks c.claim_type)
      · exact ih _ h2

/-- The head of a nonempty group is a claim of the list with that type. -/
theorem groupOf_head {V : Type} (claims : List (Claim V)) (t : ClaimType)
    (c : Claim V) (rest : List (Claim V))
    (h : groupOf claims t = c :: rest) : c ∈ claims ∧ c.claim_type = t := by
  have hc : c ∈ groupOf claims t := by
    rw [h]
    exact List.mem_cons_self _ _
  unfold groupOf at hc
  have h2 := List.mem_filter.mp hc
  refine ⟨h2.1, ?_⟩
  simpa using h2.2

/-- A binding found in the left part of an association list survives
appending on the right (first-match lookup). -/
theorem lookupStr_append_some {β : Type} (xs ys : List (String × β))
    (k : String) (v : β) (h : lookupStr xs k = some v) :
    lookupStr (xs ++ ys) k = some v := by
  induction xs with
  | nil =>
      simp [lookupStr] at h
  | cons p rest ih =>
      rw [List.cons_append]
      simp only [lookupStr] at h ⊢
      by_cases hk : p.1 = k
      · rw [if_pos hk] at h ⊢
        exact h
      · rw [if_neg hk] at h ⊢
        exact ih h

/-- Looking up a key absent from the left part of an appended association
list falls through to the right part. -/
theorem lookupStr_append_none {β : Type} (xs ys : List (String × β))
    (k : String) (h : lookupStr xs k = none) :
    lookupStr (xs ++ ys) k = lookupStr ys k := by
  induction xs with
  | nil => rfl
  | cons p rest ih =>
      rw [List.cons_append]
      simp only [lookupStr] at h ⊢
      by_cases hk : p.1 = k
      · rw [if_pos hk] at h
        cases h
      · rw [if_neg hk] at h ⊢
        exact ih h

/-- The Step-3 loop of `arbitrate` only appends entries, so a binding
already present in the accumulator is what first-match lookup keeps
returning. -/
theorem arbitrate_foldl_preserves {V : Type} (claims : List (Claim V))
    (k : String) (v : V) :
    ∀ (ks : List ClaimType) (acc : List (String × V)),
      lookupStr acc k = some v →
      lookupStr
          (ks.foldl (fun fields t => fields ++ groupEntry claims t) acc) k
        = some v := by
  intro ks
  induction ks with
  | nil =>
      intro acc h
      exact h
  | cons u ks ih =>
      intro acc h
      simp only [List.foldl_cons]
      exact ih _ (lookupStr_append_some acc (groupEntry claims u) k v h)

/-- The entry contributed by the group of a different claim type never
binds the field name of `t` (field names are injective). -/
theorem groupEntry_lookup_ne {V : Type} (claims : List (Claim V))
    (u t : ClaimType) (hu : u ≠ t) :
    lookupStr (groupEntry claims u) (claim_type_to_field_name t) = none := by
  have hne : claim_type_to_field_name u ≠ claim_type_to_field_name t :=
    fun he => hu (claim_type_to_field_name_inj u t he)
  unfold groupEntry
  rcases groupOf claims u with _ | ⟨c2, rest2⟩
  · rfl
  · simp only [lookupStr]
    rw [if_neg hne]

/-- Main lookup lemma for the Step-3 loop: once the key list contains `t`
and the accumulator does not yet bind the field of `t`, the final mapping
binds it to the value of the Python-`max` winner of the group of `t`. -/
theorem arbitrate_foldl_lookup {V : Type} (claims : List (Claim V))
    (t : ClaimType) (c : Claim V) (rest : List (Claim V))
    (hg : groupOf claims t = c :: rest) :
    ∀ (ks : List ClaimType) (acc : List (String × V)),
      t ∈ ks →
      lookupStr acc (claim_type_to_field_name t) = none →
      lookupStr
          (ks.foldl (fun fields u => fields ++ groupEntry claims u) acc)
          (claim_type_to_field_name t)
        = some (pyMax calculate_score c rest).value := by
  intro ks
  induction ks with
  | nil =>
      intro acc h _
      simp at h
  | cons u ks ih =>
      intro acc h hacc
      simp only [List.foldl_cons]
      by_cases hu : u = t
      · subst hu
        have he : groupEntry claims u
            = [(claim_type_to_field_name u,
                (pyMax calculate_score c rest).value)] := by
          simp [groupEntry, hg]
        refine arbitrate_foldl_preserves claims _ _ ks _ ?_
        rw [he, lookupStr_append_none acc _ _ hacc]
        simp [lookupStr]
      · have ht : t ∈ ks := by
          rcases List.mem_cons.mp h with h1 | h2
          · exact absurd h1.symm hu
          · exact h2
        refine ih _ ht ?_
        rw [lookupStr_append_none acc _ _ hacc]
        exact groupEntry_lookup_ne claims u t hu

/-- The field mapping returned by `arbitrate` binds the field of every
nonempty group to the value of the Python-`max` winner of that group. -/
theorem arbitrate_lookup {V : Type} (config : GovConfig)
    (claims : List (Claim V)) (t : ClaimType) (c : Claim V)
    (rest : List (Claim V)) (hg : groupOf claims t = c :: rest) :
    lookupStr (arbitrate config claims) (claim_type_to_field_name t)
      = some (pyMax calculate_score c rest).value := by
  have hmem : t ∈ groupKeys claims := by
    obtain ⟨hc, hct⟩ := groupOf_head claims t c rest hg
    have hm := mem_groupKeys_of_mem claims c hc
    rwa [hct] at hm
  unfold arbitrate
  exact arbitrate_foldl_lookup claims t c rest hg (groupKeys claims) []
    hmem rfl

/-- Folding `insertKey` over claims whose type is already a known key
changes nothing. -/
theorem groupKeys_const {V : Type} (τ : ClaimType) (l : List (Claim V)) :
    ∀ ks : List ClaimType, τ ∈ ks → (∀ b ∈ l, b.claim_type = τ) →
      l.foldl (fun ks c => insertKey ks c.claim_type) ks = ks := by
  induction l with
  | nil => intro ks _ _; rfl
  | cons b rest ih =>
      intro ks hτ hall
      simp only [List.foldl_cons]
      have hb : b.claim_type = τ := hall b (List.mem_cons_self _ _)
      have : insertKey ks b.claim_type = ks := by
        unfold insertKey
        rw [if_pos (hb ▸ hτ)]
      rw [this]
      exact ih ks hτ (fun c hc => hall c (List.mem_cons.mpr (Or.inr hc)))

/-- `finish_run` records the first-round evaluation it was given. -/
theorem finish_run_first_eval {V : Type} (claims : List (Claim V))
    (cmd : Command) (ev : Evaluation) (vr1 : VResults V) (ev1 : Evaluation)
    (auto rounds : ℕ) :
    (finish_run claims cmd ev vr1 ev1 auto rounds).first_eval = .ok ev1 := by
  unfold finish_run
  split <;> rfl

/-- `finish_run` records the auto-replacement call count it was given. -/
theorem finish_run_auto_calls {V : Type} (claims : List (Claim V))
    (cmd : Command) (ev : Evaluation) (vr1 : VResults V) (ev1 : Evaluation)
    (auto rounds : ℕ) :
    (finish_run claims cmd ev vr1 ev1 auto rounds).auto_calls = auto := by
  unfold finish_run
  split <;> rfl

/-- `finish_run` records the validation-round count it was given. -/
theorem finish_run_rounds {V : Type} (claims : List (Claim V))
    (cmd : Command) (ev : Evaluation) (vr1 : VResults V) (ev1 : Evaluation)
    (auto rounds : ℕ) :
    (finish_run claims cmd ev vr1 ev1 auto rounds).validation_rounds
      = rounds := by
  unfold finish_run
  split <;> rfl

/-- When `finish_run` records a non-approved approval dict, it executed
nothing and returned the inline rejection envelope with the reason string
of that dict. -/
theorem finish_run_rejected {V : Type} (claims : List (Claim V))
    (cmd : Command) (ev : Evaluation) (vr1 : VResults V) (ev1 : Evaluation)
    (auto rounds : ℕ) (a : Approval V)
    (ha : (finish_run claims cmd ev vr1 ev1 auto rounds).approval = some a)
    (hnot : a.isOk = false) :
    (finish_run claims cmd ev vr1 ev1 auto rounds).execute_calls = 0
      ∧ (finish_run claims cmd ev vr1 ev1 auto rounds).envelope
          = .ok (rejection_envelope a.reasonStr) := by
  unfold finish_run at *
  split at ha
  · simp only [Option.some.injEq] at ha
    rw [← ha] at hnot
    simp [Approval.isOk] at hnot
  · next heq =>
      simp only [Option.some.injEq] at ha
      subst ha
      exact ⟨rfl, rfl⟩

/-- The envelope of `finish_run` is either the success envelope of some
execution result or the inline rejection envelope of some reason. -/
theorem finish_run_envelope_shape {V : Type} (claims : List (Claim V))
    (cmd : Command) (ev : Evaluation) (vr1 : VResults V) (ev1 : Evaluation)
    (auto rounds : ℕ) :
    (∃ er : ExecResult,
        (finish_run claims cmd ev vr1 ev1 auto rounds).envelope
          = .ok (format_result er))
      ∨ (∃ r : String,
          (finish_run claims cmd ev vr1 ev1 auto rounds).envelope
            = .ok (rejection_envelope r)) := by
  unfold finish_run
  split
  · exact Or.inl ⟨_, rfl⟩
  · exact Or.inr ⟨_, rfl⟩

/-! Claim theorems. -/

/-- Claim C1: the spec says a claim whose type is not in
`capabilities[handler].can_claim` never appears as a winning value in the
mapping returned by `arbitrate`.  The source computes the filtered list
(`validated_claims`) but then selects winners from `grouped_claims`, which
was built from all claims, so an unauthorized claim does win: with an empty
capabilities table, the rogue claim fails `_validate_capability`, yet its
value 42 is returned as the winner for `target_slot_id`. -/
theorem arbitrate_unauthorized_claim_wins :
    validate_capability emptyConfig rogueClaim = false
      ∧ arbitrate emptyConfig [rogueClaim] = [("target_slot_id", 42)] := by
  constructor
  · decide
  · norm_num [arbitrate, groupKeys, insertKey, groupOf, groupEntry,
      validated_claims, pyMax, claim_type_to_field_name, rogueClaim,
      emptyConfig]

/-- Claim C2: the spec says a missing validator outcome is treated as
passed.  In the source, `_invoke_validators` initialises both slots to
`None` when no validator of that kind is registered, and
`_evaluate_validations` then calls `.get` on `None`, raising
`AttributeError` instead of returning normally — both directly and through
a full `process` run with an empty validator registry. -/
theorem evaluate_validations_crashes_without_validators :
    invoke_validators ([] : List (String × ValidatorFn ℕ)) [] cmdPlace
        = ⟨none, none⟩
      ∧ evaluate_validations (⟨none, none⟩ : VResults ℕ)
          = .error "AttributeError: NoneType has no attribute get"
      ∧ process ctrlNoValidators cmdPlace
          = .error "AttributeError: NoneType has no attribute get" :=
  ⟨rfl, rfl, rfl⟩

/-- Claim C3: the spec says a run whose only claim of a type comes from an
unauthorized producer is rejected with the capability-violation reason.  In
the source, `_check_capability_violations` is a stub that always returns the
empty list, so `_final_approval` approves a fully unauthorized claim set
whenever `all_ok` holds: the rogue claim fails `_validate_capability`, yet
the run is approved. -/
theorem final_approval_ignores_capability_violation :
    validate_capability emptyConfig rogueClaim = false
      ∧ check_capability_violations [rogueClaim] = []
      ∧ final_approval [rogueClaim] ⟨true, true, true⟩ = .ok [rogueClaim]
      ∧ (final_approval [rogueClaim] ⟨true, true, true⟩).isOk = true := by
  refine ⟨by decide, rfl, rfl, rfl⟩

/-- Claim C6: `_calculate_score` is exactly
`confidence * 50 + (30 if domain_dictionary_match) + (20 if rule_match)`,
and on the worked example of the spec — producer A with confidence 0.9 and a rule
match (score 65) against producer B with confidence 0.5 and a
domain-dictionary match (score 55) — A wins and `target_slot_id` is assigned
the value of A. -/
theorem calculate_score_formula_and_example :
    (∀ (V : Type) (c : Claim V),
        calculate_score c = c.confidence * 50
          + (if c.ev_domain_dictionary_match then 30 else 0)
          + (if c.ev_rule_match then 20 else 0))
      ∧ calculate_score claimA = 65
      ∧ calculate_score claimB = 55
      ∧ arbitrate configAB [claimA, claimB] = [("target_slot_id", 1)] := by
  refine ⟨fun V c => rfl, by norm_num [calculate_score, claimA],
    by norm_num [calculate_score, claimB], ?_⟩
  norm_num [arbitrate, groupKeys, insertKey, groupOf, groupEntry,
    validated_claims, pyMax, calculate_score, claim_type_to_field_name,
    claimA, claimB, configAB]

/-- Claim C10: `_execute` returns exactly
`{"executed": True, "claims_processed": len(claims)}` for every claim list
and command; it is a total pure function of its arguments (the embedding has
no state), so it never fails and mutates nothing. -/
theorem execute_returns_count :
    ∀ (V : Type) (claims : List (Claim V)) (cmd : Command),
      execute claims cmd
        = { executed := true, claims_processed := claims.length } :=
  fun _ _ _ => rfl

/-- Claim C7: `arbitrate` is a pure function of the config and claim list,
so two calls on identical claim lists return identical field mappings; and
within EVERY claim-type group of EVERY claim list (the group of `t` listed
in insertion order as `c :: rest`), the claim selected by Python `max` —
whose value the returned mapping binds to the field of that group — attains
the maximum score of the group, and every claim inserted before it in the
group scores strictly lower.  Hence whenever two or more claims of a group
tie for the highest score, the selected winner is the earliest-inserted of
them. -/
theorem arbitrate_deterministic_tiebreak :
    (∀ (V : Type) (config : GovConfig) (c1 c2 : List (Claim V)),
        c1 = c2 → arbitrate config c1 = arbitrate config c2)
      ∧ (∀ (V : Type) (config : GovConfig) (claims : List (Claim V))
          (t : ClaimType) (c : Claim V) (rest : List (Claim V)),
          groupOf claims t = c :: rest →
          lookupStr (arbitrate config claims) (claim_type_to_field_name t)
              = some (pyMax calculate_score c rest).value
            ∧ (∀ b ∈ c :: rest,
                calculate_score b
                  ≤ calculate_score (pyMax calculate_score c rest))
            ∧ ∃ pre post,
                c :: rest = pre ++ pyMax calculate_score c rest :: post
                  ∧ ∀ b ∈ pre,
                      calculate_score b
                        < calculate_score (pyMax calculate_score c rest)) := by
  refine ⟨fun V config c1 c2 h => h ▸ rfl, ?_⟩
  intro V config claims t c rest hg
  obtain ⟨pre, post, hsplit, hpre, hmax⟩ :=
    pyMax_first_argmax calculate_score rest c
  exact ⟨arbitrate_lookup config claims t c rest hg, hmax,
    pre, post, hsplit, hpre⟩

/-- Witness for C7: in the multi-type list `wClaims`, the `TARGET_SLOT_ID`
group is `[wLow, wTie1, wTie2]` with scores 25, 65, 65 — a genuine tie for
the highest score among later-inserted claims — and the winner bound to
`target_slot_id` is `wTie1`, the earlier-inserted of the tied pair. -/
theorem arbitrate_deterministic_tiebreak_witness :
    pyMax calculate_score wLow [wTie1, wTie2] = wTie1
      ∧ calculate_score wTie1 = 65
      ∧ calculate_score wTie2 = 65
      ∧ calculate_score wLow = 25
      ∧ lookupStr (arbitrate configW wClaims) "target_slot_id" = some 1 := by
  have h := arbitrate_deterministic_tiebreak.2 ℕ configW wClaims
    .TARGET_SLOT_ID wLow [wTie1, wTie2] rfl
  have hm : pyMax calculate_score wLow [wTie1, wTie2] = wTie1 := by
    norm_num [pyMax, calculate_score, wLow, wTie1, wTie2]
  refine ⟨hm, by norm_num [calculate_score, wTie1],
    by norm_num [calculate_score, wTie2],
    by norm_num [calculate_score, wLow], ?_⟩
  have h1 := h.1
  rw [hm] at h1
  exact h1

/-- Claim C8 counterexample: a validator registered under a name other than
`CapacityValidator` or `ConsistencyValidator` is registered but its
`validate` is never called; the claim that every registered validator is
called exactly once fails at this input. -/
theorem invoke_validators_skips_unknown_name :
    validator_calls [("OtherValidator", otherValidator)]
        ([] : List (Claim ℕ)) = []
      ∧ invoke_validators [("OtherValidator", otherValidator)] [] cmdPlace
          = ⟨none, none⟩ :=
  ⟨rfl, rfl⟩

/-- Claim C8 amended: `_invoke_validators` calls `validate(claims, command)`
exactly once — passing the full current claim set and never short-circuiting
on a failing outcome — on every registered validator whose name is
`CapacityValidator` or `ConsistencyValidator`, storing each outcome under
the concern slot of that validator; validators registered under any other name
are never invoked. -/
theorem invoke_validators_known_names_called_once :
    (∀ (V : Type) (validators : List (String × ValidatorFn V))
        (claims : List (Claim V)),
        validator_calls validators claims
          = ((validators.map Prod.fst).filter
              (fun n => decide (n = "CapacityValidator")
                || decide (n = "ConsistencyValidator"))).map
              (fun n => (n, claims)))
      ∧ (∀ (V : Type) (v1 v2 : ValidatorFn V) (claims : List (Claim V))
          (cmd : Command),
          invoke_validators
              [("CapacityValidator", v1), ("ConsistencyValidator", v2)]
              claims cmd
            = ⟨some (v1 claims cmd), some (v2 claims cmd)⟩) := by
  constructor
  · intro V validators claims
    unfold validator_calls
    suffices h : ∀ acc : List (String × List (Claim V)),
        validators.foldl
          (fun acc nv =>
            if nv.1 = "CapacityValidator" then acc ++ [(nv.1, claims)]
            else if nv.1 = "ConsistencyValidator" then acc ++ [(nv.1, claims)]
            else acc) acc
          = acc ++ ((validators.map Prod.fst).filter
              (fun n => decide (n = "CapacityValidator")
                || decide (n = "ConsistencyValidator"))).map
              (fun n => (n, claims)) by
      simpa using h []
    induction validators with
    | nil => intro acc; simp
    | cons nv rest ih =>
        intro acc
        simp only [List.foldl_cons, List.map_cons, List.filter_cons]
        by_cases h1 : nv.1 = "CapacityValidator"
        · simp [h1, ih]
        · by_cases h2 : nv.1 = "ConsistencyValidator"
          · simp [h1, h2, ih]
          · simp [h1, h2, ih]
  · intro V v1 v2 claims cmd
    rfl

/-- Claim C4: in a run whose auto-replacement producer is registered and
whose first evaluation pass returns normally, the producer is invoked iff
`capacity_ok` is false after that first pass, it is invoked at most once,
and at most two validation rounds run, regardless of the outcome of the
second pass. -/
theorem process_auto_replacement_bounded :
    ∀ (V : Type) (ctrl : Controller V) (cmd : Command) (f : ReplacementFn V)
      (ev1 : Evaluation),
      ctrl.autoReplacement = some f →
      evaluate_validations (round1_vr ctrl cmd) = .ok ev1 →
      (process_trace ctrl cmd).auto_calls
          = (if ev1.capacity_ok then 0 else 1)
        ∧ (process_trace ctrl cmd).auto_calls ≤ 1
        ∧ (process_trace ctrl cmd).validation_rounds ≤ 2 := by
  intro V ctrl cmd f ev1 hreg heval
  by_cases hc : ev1.capacity_ok = true
  · simp [process_trace, heval, hreg, hc, finish_run_auto_calls,
      finish_run_rounds]
  · rw [Bool.not_eq_true] at hc
    rcases hrc : f cmd (round1_vr ctrl cmd) with _ | ⟨rc0, rcs⟩
    · simp [process_trace, heval, hreg, hc, hrc, finish_run_auto_calls,
        finish_run_rounds]
    · rcases hev2 : evaluate_validations (round2_vr ctrl cmd (rc0 :: rcs))
        with e | ev2
      · simp [process_trace, heval, hreg, hc, hrc, hev2]
      · simp [process_trace, heval, hreg, hc, hrc, hev2,
          finish_run_auto_calls, finish_run_rounds]

/-- Witness for C4: in the retry run (`ctrlRetry`) the first evaluation has
`capacity_ok = false`, the auto-replacement producer runs exactly once, and
two validation rounds run. -/
theorem process_auto_replacement_bounded_witness :
    (process_trace ctrlRetry cmdPlace).auto_calls
        = (if (Evaluation.mk false true false).capacity_ok then 0 else 1)
      ∧ (process_trace ctrlRetry cmdPlace).auto_calls ≤ 1
      ∧ (process_trace ctrlRetry cmdPlace).validation_rounds ≤ 2 :=
  process_auto_replacement_bounded ℕ ctrlRetry cmdPlace replacementStub
    ⟨false, true, false⟩ rfl rfl

/-- Helper: when `finish_run` returned an envelope, it is either the success
envelope of some execution result or the rejection envelope of some
reason. -/
theorem envelope_of_finish {V : Type} (claims : List (Claim V))
    (cmd : Command) (ev : Evaluation) (vr1 : VResults V) (ev1 : Evaluation)
    (auto rounds : ℕ) (env : Envelope)
    (h : (finish_run claims cmd ev vr1 ev1 auto rounds).envelope = .ok env) :
    (∃ er : ExecResult, env = format_result er)
      ∨ (∃ r : String, env = rejection_envelope r) := by
  rcases finish_run_envelope_shape claims cmd ev vr1 ev1 auto rounds with
    ⟨er, hsh⟩ | ⟨r, hsh⟩
  · rw [hsh] at h
    injection h with h2
    exact Or.inl ⟨er, h2.symm⟩
  · rw [hsh] at h
    injection h with h2
    exact Or.inr ⟨r, h2.symm⟩

/-- Claim C5: whenever final approval rejects a run, `process` returns the
rejection envelope for that reason and `_execute` is never called (the
execute counter of the run is zero). -/
theorem process_rejected_skips_execution :
    ∀ (V : Type) (ctrl : Controller V) (cmd : Command) (a : Approval V),
      (process_trace ctrl cmd).approval = some a →
      a.isOk = false →
      (process_trace ctrl cmd).execute_calls = 0
        ∧ (process_trace ctrl cmd).envelope
            = .ok (rejection_envelope a.reasonStr) := by
  intro V ctrl cmd a happr hnot
  rcases hev : evaluate_validations (round1_vr ctrl cmd) with e | ev1
  · simp [process_trace, hev] at happr
  · by_cases hc : ev1.capacity_ok = true
    · simp only [process_trace, hev, hc, if_true] at happr ⊢
      exact finish_run_rejected _ _ _ _ _ _ _ a happr hnot
    · rw [Bool.not_eq_true] at hc
      rcases hauto : ctrl.autoReplacement with _ | f
      · simp only [process_trace, hev, hc, hauto, Bool.false_eq_true,
          if_false] at happr ⊢
        exact finish_run_rejected _ _ _ _ _ _ _ a happr hnot
      · rcases hrc : f cmd (round1_vr ctrl cmd) with _ | ⟨rc0, rcs⟩
        · simp only [process_trace, hev, hc, hauto, hrc, Bool.false_eq_true,
            if_false] at happr ⊢
          exact finish_run_rejected _ _ _ _ _ _ _ a happr hnot
        · rcases hev2 : evaluate_validations (round2_vr ctrl cmd (rc0 :: rcs))
            with e | ev2
          · simp [process_trace, hev, hc, hauto, hrc, hev2] at happr
          · simp only [process_trace, hev, hc, hauto, hrc, hev2,
              Bool.false_eq_true, if_false] at happr ⊢
            exact finish_run_rejected _ _ _ _ _ _ _ a happr hnot

/-- Witness for C5: the run of `ctrlReject` (consistency validator fails) is
rejected with the validation-failure reason, executes nothing, and returns
the rejection envelope. -/
theorem process_rejected_skips_execution_witness :
    (process_trace ctrlReject cmdPlace).execute_calls = 0
      ∧ (process_trace ctrlReject cmdPlace).envelope
          = .ok (rejection_envelope
              (Approval.validation_failed (V := ℕ)
                ⟨true, false, false⟩).reasonStr) :=
  process_rejected_skips_execution ℕ ctrlReject cmdPlace
    (.validation_failed ⟨true, false, false⟩) rfl rfl

/-- Claim C9 counterexample: a successful run of `process` returns the
envelope `{"success": True, "result": ..., "message": ...}`, which has no
`phase` key — the claim that every returned envelope contains a phase field
fails on the success path. -/
theorem process_success_envelope_lacks_phase :
    process ctrlOk cmdPlace = .ok okEnvelope
      ∧ envHasKey okEnvelope "phase" = false :=
  ⟨rfl, by decide⟩

/-- Claim C9 amended: every envelope returned by `process` carries a
`success` boolean and a result-or-error field, but only the rejection
envelope carries a `phase` field (`"approval"`); the success envelope
carries a `message` field instead of `phase`. -/
theorem process_envelope_shape :
    (∀ (V : Type) (ctrl : Controller V) (cmd : Command) (env : Envelope),
        process ctrl cmd = .ok env →
        (∃ er : ExecResult, env = format_result er)
          ∨ (∃ r : String, env = rejection_envelope r))
      ∧ (∀ er : ExecResult,
          envHasKey (format_result er) "success" = true
            ∧ envHasKey (format_result er) "result" = true
            ∧ envHasKey (format_result er) "message" = true
            ∧ envHasKey (format_result er) "phase" = false)
      ∧ (∀ r : String,
          envHasKey (rejection_envelope r) "success" = true
            ∧ envHasKey (rejection_envelope r) "error" = true
            ∧ envHasKey (rejection_envelope r) "phase" = true) := by
  refine ⟨?_, ?_, ?_⟩
  · intro V ctrl cmd env h
    unfold process at h
    rcases hev : evaluate_validations (round1_vr ctrl cmd) with e | ev1
    · simp [process_trace, hev] at h
    · by_cases hc : ev1.capacity_ok = true
      · simp only [process_trace, hev, hc, if_true] at h
        exact envelope_of_finish _ _ _ _ _ _ _ _ h
      · rw [Bool.not_eq_true] at hc
        rcases hauto : ctrl.autoReplacement with _ | f
        · simp only [process_trace, hev, hc, hauto, Bool.false_eq_true,
            if_false] at h
          exact envelope_of_finish _ _ _ _ _ _ _ _ h
        · rcases hrc : f cmd (round1_vr ctrl cmd) with _ | ⟨rc0, rcs⟩
          · simp only [process_trace, hev, hc, hauto, hrc,
              Bool.false_eq_true, if_false] at h
            exact envelope_of_finish _ _ _ _ _ _ _ _ h
          · rcases hev2 :
                evaluate_validations (round2_vr ctrl cmd (rc0 :: rcs))
              with e | ev2
            · simp [process_trace, hev, hc, hauto, hrc, hev2] at h
            · simp only [process_trace, hev, hc, hauto, hrc, hev2,
                Bool.false_eq_true, if_false] at h
              exact envelope_of_finish _ _ _ _ _ _ _ _ h
  · intro er
    refine ⟨?_, ?_, ?_, ?_⟩ <;> simp [envHasKey, format_result]
  · intro r
    refine ⟨?_, ?_, ?_⟩ <;> simp [envHasKey, rejection_envelope]

/-- Witness for C9 (amended): the successful run of `ctrlOk` returns an
envelope of the success shape. -/
theorem process_envelope_shape_witness :
    (∃ er : ExecResult, okEnvelope = format_result er)
      ∨ (∃ r : String, okEnvelope = rejection_envelope r) :=
  process_envelope_shape.1 ℕ ctrlOk cmdPlace okEnvelope rfl
